import Mathlib

/-!
Verification development for the `backpy` backup runner (src/backpy.py).

The program is shallowly embedded:
* filenames are lists of characters (`FName`), paths are lists of components
  (`Path`);
* the retention logic of `BackupRunner._cleanup` (backpy.py:129-143) is the
  pure function `pruneToDelete`;
* the orchestration of `BackupRunner.run` (backpy.py:147-176), including the
  `with LockFile(...)` block, the `except` clauses and the `finally` block,
  is the trace-producing function `runFull` over an explicit `Scenario` of
  inputs and injected failures;
* the per-file copy logic of `BackupRunner._copy_worker` (backpy.py:74-87)
  is `copy_worker` over an explicit staging file system;
* the archive construction of `BackupRunner._zip_staging_folder`
  (backpy.py:103-118) is `zipEntries`.
-/

namespace Backpy

/-- A filename, as the list of its characters (Python `str`). -/
abbrev FName := List Char

/-- The archive extension `'.zip'` used by `_cleanup` (backpy.py:134). -/
def zipExt : FName := ['.', 'z', 'i', 'p']

/-- Python `f.startswith(pre) and f.endswith('.zip')` (backpy.py:134). -/
def isBundle (pre : FName) (f : FName) : Bool :=
  pre.isPrefixOf f && zipExt.isSuffixOf f

/-- The list comprehension of backpy.py:134: files of the destination
directory whose names match the bundle pattern. -/
def listBackups (dest : List FName) (pre : FName) : List FName :=
  dest.filter (isBundle pre)

/-- Comparison by modification time, the sort key of backpy.py:135. -/
def mtimeLe (m : FName → Nat) (a b : FName) : Prop := m a ≤ m b

instance (m : FName → Nat) : DecidableRel (mtimeLe m) :=
  fun a b => inferInstanceAs (Decidable (m a ≤ m b))

instance (m : FName → Nat) : IsTotal FName (mtimeLe m) :=
  ⟨fun a b => Nat.le_total (m a) (m b)⟩

instance (m : FName → Nat) : IsTrans FName (mtimeLe m) :=
  ⟨fun _ _ _ hab hbc => Nat.le_trans hab hbc⟩

/-- `sorted(backups, key=mtime)` of backpy.py:133-136: the matching files
sorted ascending by modification time (stable insertion sort, matching the
stability of Python `sorted`). -/
def sortedBackups (dest : List FName) (pre : FName) (m : FName → Nat) : List FName :=
  List.insertionSort (mtimeLe m) (listBackups dest pre)

/-- `to_delete = backups[:-retention]` (backpy.py:137).  Python slicing with
a negative stop: for `retention = 0` the slice `[:-0] = [:0]` is empty, for
`retention > 0` it keeps all but the last `retention` entries. -/
def pruneToDelete (dest : List FName) (pre : FName) (m : FName → Nat)
    (retention : Nat) : List FName :=
  if retention = 0 then []
  else
    let b := sortedBackups dest pre m
    b.take (b.length - retention)

/-- The bundles the pruning pass of backpy.py:137-143 leaves in place. -/
def pruneKept (dest : List FName) (pre : FName) (m : FName → Nat)
    (retention : Nat) : List FName :=
  if retention = 0 then sortedBackups dest pre m
  else
    let b := sortedBackups dest pre m
    b.drop (b.length - retention)

theorem sortedBackups_perm (dest : List FName) (pre : FName) (m : FName → Nat) :
    List.Perm (sortedBackups dest pre m) (listBackups dest pre) :=
  List.perm_insertionSort _ _

theorem sortedBackups_sorted (dest : List FName) (pre : FName) (m : FName → Nat) :
    List.Sorted (mtimeLe m) (sortedBackups dest pre m) :=
  List.sorted_insertionSort _ _

theorem sortedBackups_length (dest : List FName) (pre : FName) (m : FName → Nat) :
    (sortedBackups dest pre m).length = (listBackups dest pre).length :=
  (sortedBackups_perm dest pre m).length_eq

/-- C5: with retention `R ≥ 1` and `B` matching bundles in the destination:
if `B ≤ R` pruning deletes nothing, and if `B > R` it deletes exactly `B - R`
bundles, keeps exactly `R`, every deleted bundle is at most as recently
modified as every kept one, and deleted and kept bundles together are exactly
the matching bundles. -/
theorem retention_prunes_oldest (dest : List FName) (pre : FName)
    (m : FName → Nat) (R : Nat) (hR : 1 ≤ R) :
    ((listBackups dest pre).length ≤ R → pruneToDelete dest pre m R = []) ∧
    (R < (listBackups dest pre).length →
      (pruneToDelete dest pre m R).length = (listBackups dest pre).length - R ∧
      (pruneKept dest pre m R).length = R ∧
      (∀ d ∈ pruneToDelete dest pre m R, ∀ k ∈ pruneKept dest pre m R, m d ≤ m k) ∧
      List.Perm (pruneToDelete dest pre m R ++ pruneKept dest pre m R) (listBackups dest pre)) := by
  have hR0 : R ≠ 0 := Nat.one_le_iff_ne_zero.mp hR
  have hlen := sortedBackups_length dest pre m
  constructor
  · intro hBR
    unfold pruneToDelete
    rw [if_neg hR0]
    have : (sortedBackups dest pre m).length - R = 0 := by omega
    simp [this]
  · intro hRB
    have hd : pruneToDelete dest pre m R =
        (sortedBackups dest pre m).take ((sortedBackups dest pre m).length - R) := by
      unfold pruneToDelete; rw [if_neg hR0]
    have hk : pruneKept dest pre m R =
        (sortedBackups dest pre m).drop ((sortedBackups dest pre m).length - R) := by
      unfold pruneKept; rw [if_neg hR0]
    refine ⟨?_, ?_, ?_, ?_⟩
    · rw [hd, List.length_take]; omega
    · rw [hk, List.length_drop]; omega
    · intro d hdm k hkm
      have hsorted := sortedBackups_sorted dest pre m
      have hsplit := List.take_append_drop
        ((sortedBackups dest pre m).length - R) (sortedBackups dest pre m)
      rw [← hsplit] at hsorted
      have := (List.pairwise_append.mp hsorted).2.2
      rw [hd] at hdm; rw [hk] at hkm
      exact this d hdm k hkm
    · rw [hd, hk, List.take_append_drop]
      exact sortedBackups_perm dest pre m

/-- A destination with two matching bundles and one non-matching file. -/
def exDest5 : List FName := ["b1.zip".toList, "b2.zip".toList, "x.txt".toList]

/-- The bundle name prefix of the concrete retention example. -/
def exPre5 : FName := "b".toList

/-- Modification times of the concrete retention example. -/
def exM5 : FName → Nat := fun f => f.length

/-- Closed instance of the retention theorem: two matching bundles,
retention 1, checked on concrete data. -/
theorem retention_prunes_oldest_witness :
    (1 ≤ 1) ∧
    (((listBackups exDest5 exPre5).length ≤ 1 →
      pruneToDelete exDest5 exPre5 exM5 1 = []) ∧
     (1 < (listBackups exDest5 exPre5).length →
      (pruneToDelete exDest5 exPre5 exM5 1).length =
        (listBackups exDest5 exPre5).length - 1 ∧
      (pruneKept exDest5 exPre5 exM5 1).length = 1 ∧
      (∀ d ∈ pruneToDelete exDest5 exPre5 exM5 1,
       ∀ k ∈ pruneKept exDest5 exPre5 exM5 1, exM5 d ≤ exM5 k) ∧
      List.Perm (pruneToDelete exDest5 exPre5 exM5 1 ++ pruneKept exDest5 exPre5 exM5 1)
        (listBackups exDest5 exPre5))) :=
  ⟨by decide, retention_prunes_oldest exDest5 exPre5 exM5 1 (by decide)⟩

/-- Observable filesystem actions of one `BackupRunner.run` invocation, in
program order.  Pure log lines that carry no decision are omitted except
where a claim refers to them. -/
inductive Ev where
  | lockCreate
  | lockRelease
  | logAlreadyRunning
  | preStagingRemove
  | stagingCreate
  | enumerate
  | logNoFiles
  | mkdirStaging (i : Nat)
  | copyFile (i : Nat)
  | copyFail (i : Nat)
  | archiveInvoke
  | archiveDryLog
  | archiveCreate (name : FName)
  | archiveWriteDone
  | logCritical
  | cleanupInvoke
  | stagingRemoveDryLog
  | cleanupStagingRemove
  | pruneList (backups : List FName)
  | pruneDelete (name : FName)
  | pruneDeleteDryLog (name : FName)
  | pruneErrorLog
  | logFinished
deriving DecidableEq, Repr

/-- One run's inputs: initial filesystem facts, configuration, and injected
failures of the fallible operating-system calls. -/
structure Scenario where
  lockHeld : Bool
  stagingExists0 : Bool
  dryRun : Bool
  numFiles : Nat
  sizes : Nat → Nat
  copyFails : Nat → Bool
  stagingSetupFails : Bool
  archiveFails : Bool
  rmtreeFails : Bool
  pruneFails : Bool
  destFiles : List FName
  mtime : FName → Nat
  retention : Nat
  pre : FName
  timestamp : FName

/-- `f"{prefix}_{timestamp}.zip"` (backpy.py:165). -/
def bundleName (s : Scenario) : FName :=
  s.pre ++ '_' :: s.timestamp ++ zipExt

/-- Actions of `_copy_worker` (backpy.py:74-87) on file `i`: on any failure
the exception is caught locally; otherwise the destination directory is
created and, unless dry-run, the file is copied. -/
def workerEvents (s : Scenario) (i : Nat) : List Ev :=
  if s.copyFails i then [Ev.copyFail i]
  else Ev.mkdirStaging i :: (if s.dryRun then [] else [Ev.copyFile i])

/-- The `(success, size, src)` result of `_copy_worker` (backpy.py:84,87),
projected to the success flag and byte count. -/
def copyWorkerRes (s : Scenario) (i : Nat) : Bool × Nat :=
  if s.copyFails i then (false, 0) else (true, s.sizes i)

/-- The retention pass of `_cleanup` (backpy.py:129-145): list matching
bundles, sort by mtime, delete all but the newest `retention`; any exception
of the `try` block is logged and absorbed.  Returns the emitted events and
the destination contents afterwards. -/
def pruneRun (s : Scenario) (dest : List FName) : List Ev × List FName :=
  if s.pruneFails then ([Ev.pruneErrorLog], dest)
  else
    (Ev.pruneList (sortedBackups dest s.pre s.mtime) ::
       (pruneToDelete dest s.pre s.mtime s.retention).map
         (fun b => if s.dryRun then Ev.pruneDeleteDryLog b else Ev.pruneDelete b),
     if s.dryRun then dest
     else dest.filter (fun f => !(decide (f ∈ pruneToDelete dest s.pre s.mtime s.retention))))

/-- Result of `_cleanup` (backpy.py:120-145): events, destination contents,
and whether an exception escaped it (only the `shutil.rmtree` of
backpy.py:127 is outside the `try` of the retention pass). -/
structure CleanOut where
  evs : List Ev
  dest : List FName
  raised : Bool

/-- `_cleanup` (backpy.py:120-145) given whether the staging directory
exists when it is called. -/
def cleanupRun (s : Scenario) (stagingNow : Bool) (dest : List FName) : CleanOut :=
  if stagingNow then
    if s.dryRun then
      let p := pruneRun s dest
      { evs := Ev.cleanupInvoke :: Ev.stagingRemoveDryLog :: p.1, dest := p.2, raised := false }
    else if s.rmtreeFails then
      { evs := [Ev.cleanupInvoke], dest := dest, raised := true }
    else
      let p := pruneRun s dest
      { evs := Ev.cleanupInvoke :: Ev.cleanupStagingRemove :: p.1, dest := p.2, raised := false }
  else
    let p := pruneRun s dest
    { evs := Ev.cleanupInvoke :: p.1, dest := p.2, raised := false }

/-- Result of the `with LockFile` body of `run` (backpy.py:151-167):
events, whether an exception escaped the body, whether the staging
directory exists afterwards, and the destination contents. -/
structure BodyOut where
  evs : List Ev
  raised : Bool
  stagingNow : Bool
  dest : List FName

/-- The body of the `with LockFile` block of `run` (backpy.py:152-167):
remove a pre-existing staging tree, recreate it, enumerate, copy in
parallel, then archive.  `stagingSetupFails` injects a failure of the
`shutil.rmtree` at backpy.py:153; `archiveFails` a failure of the zip
writing after `zipfile.ZipFile(...)` created the output file. -/
def setupEvents (s : Scenario) : List Ev :=
  (if s.stagingExists0 then [Ev.preStagingRemove] else []) ++
    [Ev.stagingCreate, Ev.enumerate]

/-- Actions of `_copy_files_to_staging_parallel` (backpy.py:89-101): every
task is submitted and every future's result is consumed; one linearization
of the worker pool. -/
def copyEvents (s : Scenario) : List Ev :=
  (List.range s.numFiles).flatMap (workerEvents s)

/-- Actions of `_zip_staging_folder` (backpy.py:103-118) followed by the
fate of the output file: under dry-run only a log line; otherwise
`zipfile.ZipFile(path, 'w')` creates the output file first, and a failure
while writing entries leaves it in place. -/
def archiveEvents (s : Scenario) : List Ev :=
  Ev.archiveInvoke ::
    (if s.dryRun then [Ev.archiveDryLog]
     else if s.archiveFails then [Ev.archiveCreate (bundleName s)]
     else [Ev.archiveCreate (bundleName s), Ev.archiveWriteDone])

def bodyRun (s : Scenario) : BodyOut :=
  if s.stagingExists0 && s.stagingSetupFails then
    { evs := [], raised := true, stagingNow := true, dest := s.destFiles }
  else if s.numFiles = 0 then
    { evs := setupEvents s ++ [Ev.logNoFiles], raised := false,
      stagingNow := true, dest := s.destFiles }
  else if s.dryRun then
    { evs := setupEvents s ++ copyEvents s ++ archiveEvents s,
      raised := false, stagingNow := true, dest := s.destFiles }
  else
    { evs := setupEvents s ++ copyEvents s ++ archiveEvents s,
      raised := s.archiveFails, stagingNow := true,
      dest := bundleName s :: s.destFiles }

/-- Result of a whole `run` (backpy.py:147-176): emitted events and final
destination-directory contents. -/
structure RunOut where
  evs : List Ev
  dest : List FName

/-- `BackupRunner.run` (backpy.py:147-176).  If the lock marker exists,
`LockFile.__enter__` raises before the body runs and before any marker is
written, so `__exit__` never runs; the `except RuntimeError` logs it, and
the `finally` still calls `_cleanup`.  Otherwise the marker is created, the
body runs, `__exit__` removes the marker when the `with` block exits (before
the `except`/`finally` of `run`), a fatal body exception is logged, and
`_cleanup` runs; the closing log lines run only if `_cleanup` did not
raise. -/
def runFull (s : Scenario) : RunOut :=
  if s.lockHeld then
    let c := cleanupRun s s.stagingExists0 s.destFiles
    { evs := Ev.logAlreadyRunning ::
        (c.evs ++ if c.raised then [] else [Ev.logFinished]),
      dest := c.dest }
  else
    let b := bodyRun s
    let c := cleanupRun s b.stagingNow b.dest
    { evs := Ev.lockCreate :: (b.evs ++ Ev.lockRelease ::
        ((if b.raised then [Ev.logCritical] else []) ++
          (c.evs ++ if c.raised then [] else [Ev.logFinished]))),
      dest := c.dest }

/-- The event trace of one run. -/
def runEvents (s : Scenario) : List Ev := (runFull s).evs

/-- The destination-directory contents after one run. -/
def runDest (s : Scenario) : List FName := (runFull s).dest

/-- Events that can be emitted by the `with LockFile` body (backpy.py:152-167). -/
def isBodyEv : Ev → Bool
  | .preStagingRemove | .stagingCreate | .enumerate | .logNoFiles
  | .mkdirStaging _ | .copyFile _ | .copyFail _
  | .archiveInvoke | .archiveDryLog | .archiveCreate _ | .archiveWriteDone => true
  | _ => false

/-- Events of the staging-removal part of `_cleanup` (backpy.py:122-127). -/
def isStagingCleanEv : Ev → Bool
  | .stagingRemoveDryLog | .cleanupStagingRemove => true
  | _ => false

/-- Events of the retention part of `_cleanup` (backpy.py:129-145). -/
def isPruneEv : Ev → Bool
  | .pruneList _ | .pruneDelete _ | .pruneDeleteDryLog _ | .pruneErrorLog => true
  | _ => false

/-- Events emitted (only) by `_cleanup` (backpy.py:120-145). -/
def isCleanupEv : Ev → Bool
  | .cleanupInvoke | .stagingRemoveDryLog | .cleanupStagingRemove
  | .pruneList _ | .pruneDelete _ | .pruneDeleteDryLog _ | .pruneErrorLog => true
  | _ => false

/-- Recognizes the lock-release event. -/
def isLockReleaseEv : Ev → Bool
  | .lockRelease => true
  | _ => false

theorem not_mem_of_classify {p : Ev → Bool} {l : List Ev}
    (h : ∀ e ∈ l, p e = true) {x : Ev} (hx : p x = false) : x ∉ l :=
  fun hm => by rw [h x hm] at hx; exact Bool.noConfusion hx

theorem isBodyEv_of_mem_workerEvents (s : Scenario) (i : Nat) :
    ∀ e ∈ workerEvents s i, isBodyEv e = true := by
  intro e he
  unfold workerEvents at he
  by_cases hc : s.copyFails i
  · simp [hc] at he; subst he; rfl
  · by_cases hd : s.dryRun <;> simp [hc, hd] at he
    · subst he; rfl
    · rcases he with rfl | rfl <;> rfl

theorem isBodyEv_of_mem_copyEvents (s : Scenario) :
    ∀ e ∈ copyEvents s, isBodyEv e = true := by
  intro e he
  unfold copyEvents at he
  rw [List.mem_flatMap] at he
  obtain ⟨i, _, hi⟩ := he
  exact isBodyEv_of_mem_workerEvents s i e hi

theorem isBodyEv_of_mem_setupEvents (s : Scenario) :
    ∀ e ∈ setupEvents s, isBodyEv e = true := by
  intro e he
  unfold setupEvents at he
  by_cases h0 : s.stagingExists0 <;> simp [h0] at he
  · rcases he with rfl | rfl | rfl <;> rfl
  · rcases he with rfl | rfl <;> rfl

theorem isBodyEv_of_mem_archiveEvents (s : Scenario) :
    ∀ e ∈ archiveEvents s, isBodyEv e = true := by
  intro e he
  unfold archiveEvents at he
  by_cases hd : s.dryRun
  · simp [hd] at he; rcases he with rfl | rfl <;> rfl
  · by_cases ha : s.archiveFails <;> simp [hd, ha] at he
    · rcases he with rfl | rfl <;> rfl
    · rcases he with rfl | rfl | rfl <;> rfl

/-- The event list of the body is always one of two explicit shapes. -/
theorem bodyRun_evs_shape (s : Scenario) :
    (bodyRun s).evs = [] ∨
    (bodyRun s).evs = setupEvents s ++ [Ev.logNoFiles] ∨
    (bodyRun s).evs = setupEvents s ++ copyEvents s ++ archiveEvents s := by
  unfold bodyRun
  by_cases h1 : (s.stagingExists0 && s.stagingSetupFails) = true
  · rw [if_pos h1]; exact Or.inl rfl
  · rw [if_neg h1]
    by_cases h2 : s.numFiles = 0
    · rw [if_pos h2]; exact Or.inr (Or.inl rfl)
    · rw [if_neg h2]
      by_cases hd : s.dryRun = true
      · rw [if_pos hd]; exact Or.inr (Or.inr rfl)
      · rw [if_neg hd]; exact Or.inr (Or.inr rfl)

theorem isBodyEv_of_mem_bodyRun (s : Scenario) :
    ∀ e ∈ (bodyRun s).evs, isBodyEv e = true := by
  intro e he
  rcases bodyRun_evs_shape s with h | h | h <;> rw [h] at he
  · exact absurd he (List.not_mem_nil e)
  · rw [List.mem_append] at he
    rcases he with he | he
    · exact isBodyEv_of_mem_setupEvents s e he
    · rw [List.mem_singleton] at he; subst he; rfl
  · rw [List.mem_append, List.mem_append] at he
    rcases he with (he | he) | he
    · exact isBodyEv_of_mem_setupEvents s e he
    · exact isBodyEv_of_mem_copyEvents s e he
    · exact isBodyEv_of_mem_archiveEvents s e he

theorem isPruneEv_of_mem_pruneRun (s : Scenario) (dest : List FName) :
    ∀ e ∈ (pruneRun s dest).1, isPruneEv e = true := by
  intro e he
  unfold pruneRun at he
  by_cases hp : s.pruneFails
  · simp [hp] at he; subst he; rfl
  · simp [hp] at he
    rcases he with rfl | he
    · rfl
    · obtain ⟨b, _, hb⟩ := he
      by_cases hd : s.dryRun <;> simp [hd] at hb <;> subst hb <;> rfl

theorem cleanupRun_evs_decomp (s : Scenario) (st : Bool) (dest : List FName) :
    ∃ stag prune, (cleanupRun s st dest).evs = Ev.cleanupInvoke :: (stag ++ prune) ∧
      (∀ e ∈ stag, isStagingCleanEv e = true) ∧
      (∀ e ∈ prune, isPruneEv e = true) := by
  unfold cleanupRun
  by_cases hst : st = true
  · by_cases hd : s.dryRun
    · refine ⟨[Ev.stagingRemoveDryLog], (pruneRun s dest).1, by simp [hst, hd], ?_, ?_⟩
      · intro e he; simp at he; subst he; rfl
      · exact isPruneEv_of_mem_pruneRun s dest
    · by_cases hr : s.rmtreeFails
      · exact ⟨[], [], by simp [hst, hd, hr], by simp, by simp⟩
      · refine ⟨[Ev.cleanupStagingRemove], (pruneRun s dest).1, by simp [hst, hd, hr], ?_, ?_⟩
        · intro e he; simp at he; subst he; rfl
        · exact isPruneEv_of_mem_pruneRun s dest
  · refine ⟨[], (pruneRun s dest).1, ?_, by simp, isPruneEv_of_mem_pruneRun s dest⟩
    rw [if_neg hst]; simp

/-- Recognizes the `_cleanup` invocation event. -/
def isCleanupInvokeEv : Ev → Bool
  | .cleanupInvoke => true
  | _ => false

/-- Recognizes the cleanup-phase staging `rmtree` event (backpy.py:127). -/
def isStagingRemoveEv : Ev → Bool
  | .cleanupStagingRemove => true
  | _ => false

/-- Recognizes an actual file copy (backpy.py:83). -/
def isCopyFileEv : Ev → Bool
  | .copyFile _ => true
  | _ => false

/-- Recognizes the creation of the archive output file (backpy.py:112). -/
def isArchiveCreateEv : Ev → Bool
  | .archiveCreate _ => true
  | _ => false

/-- Recognizes an actual bundle deletion (backpy.py:143). -/
def isPruneDeleteEv : Ev → Bool
  | .pruneDelete _ => true
  | _ => false

/-- Recognizes the listing event of the retention pass. -/
def isPruneListEv : Ev → Bool
  | .pruneList _ => true
  | _ => false

theorem mem_setupEvents (s : Scenario) (e : Ev) :
    e ∈ setupEvents s ↔
      (s.stagingExists0 = true ∧ e = Ev.preStagingRemove) ∨
      e = Ev.stagingCreate ∨ e = Ev.enumerate := by
  unfold setupEvents
  by_cases h0 : s.stagingExists0 = true <;> simp [h0]

theorem mem_workerEvents (s : Scenario) (i : Nat) (e : Ev) :
    e ∈ workerEvents s i ↔
      (s.copyFails i = true ∧ e = Ev.copyFail i) ∨
      (s.copyFails i = false ∧
        (e = Ev.mkdirStaging i ∨ (s.dryRun = false ∧ e = Ev.copyFile i))) := by
  unfold workerEvents
  by_cases hc : s.copyFails i = true <;> by_cases hd : s.dryRun = true <;>
    simp [hc, hd]

theorem mem_archiveEvents (s : Scenario) (e : Ev) :
    e ∈ archiveEvents s ↔
      e = Ev.archiveInvoke ∨
      (s.dryRun = true ∧ e = Ev.archiveDryLog) ∨
      (s.dryRun = false ∧
        (e = Ev.archiveCreate (bundleName s) ∨
          (s.archiveFails = false ∧ e = Ev.archiveWriteDone))) := by
  unfold archiveEvents
  by_cases hd : s.dryRun = true <;> by_cases ha : s.archiveFails = true <;>
    simp [hd, ha]

theorem mem_copyEvents (s : Scenario) (e : Ev) :
    e ∈ copyEvents s ↔ ∃ i, i ∈ List.range s.numFiles ∧ e ∈ workerEvents s i := by
  unfold copyEvents
  exact List.mem_flatMap

theorem bodyRun_stagingNow (s : Scenario) : (bodyRun s).stagingNow = true := by
  unfold bodyRun
  by_cases h1 : (s.stagingExists0 && s.stagingSetupFails) = true
  · rw [if_pos h1]
  · rw [if_neg h1]
    by_cases h2 : s.numFiles = 0
    · rw [if_pos h2]
    · rw [if_neg h2]
      by_cases hd : s.dryRun = true
      · rw [if_pos hd]
      · rw [if_neg hd]

theorem bodyRun_dest_dry (s : Scenario) (hd : s.dryRun = true) :
    (bodyRun s).dest = s.destFiles := by
  unfold bodyRun
  by_cases h1 : (s.stagingExists0 && s.stagingSetupFails) = true
  · rw [if_pos h1]
  · rw [if_neg h1]
    by_cases h2 : s.numFiles = 0
    · rw [if_pos h2]
    · rw [if_neg h2, if_pos hd]

theorem pruneRun_dest_dry (s : Scenario) (dest : List FName) (hd : s.dryRun = true) :
    (pruneRun s dest).2 = dest := by
  unfold pruneRun
  by_cases hp : s.pruneFails = true <;> simp [hp, hd]

theorem cleanupRun_dest_dry (s : Scenario) (st : Bool) (dest : List FName)
    (hd : s.dryRun = true) : (cleanupRun s st dest).dest = dest := by
  unfold cleanupRun
  by_cases hst : st = true
  · rw [if_pos hst, if_pos hd]
    exact pruneRun_dest_dry s dest hd
  · rw [if_neg hst]
    exact pruneRun_dest_dry s dest hd

/-- In a run that acquires the lock, the trace has the literal structure of
`run` (backpy.py:147-176): marker creation, body, marker release at the exit
of the `with` block, the `except` log, then `_cleanup` and the closing
log. -/
theorem runEvents_shape (s : Scenario) (h : s.lockHeld = false) :
    runEvents s = Ev.lockCreate :: ((bodyRun s).evs ++ Ev.lockRelease ::
      ((if (bodyRun s).raised then [Ev.logCritical] else []) ++
        ((cleanupRun s (bodyRun s).stagingNow (bodyRun s).dest).evs ++
          if (cleanupRun s (bodyRun s).stagingNow (bodyRun s).dest).raised then []
          else [Ev.logFinished]))) := by
  unfold runEvents runFull
  rw [if_neg (by rw [h]; exact Bool.false_ne_true)]

theorem countP_eq_zero_of_classify {p q : Ev → Bool} {l : List Ev}
    (h : ∀ e ∈ l, p e = true) (hpq : ∀ e, p e = true → q e = false) :
    l.countP q = 0 := by
  rw [List.countP_eq_zero]
  intro a ha
  simp [hpq a (h a ha)]

theorem cleanupRun_evs_eq (s : Scenario) (st : Bool) (dest : List FName)
    (hd : s.dryRun = false) (hr : s.rmtreeFails = false) (hst : st = true) :
    (cleanupRun s st dest).evs =
      Ev.cleanupInvoke :: Ev.cleanupStagingRemove :: (pruneRun s dest).1 := by
  unfold cleanupRun
  rw [if_pos hst, if_neg (by rw [hd]; exact Bool.false_ne_true),
    if_neg (by rw [hr]; exact Bool.false_ne_true)]

/-- A typical fault-free scenario: lock free, pre-existing staging tree,
one source file, three old bundles, retention 2. -/
def sHappy : Scenario :=
  { lockHeld := false, stagingExists0 := true, dryRun := false, numFiles := 1,
    sizes := fun _ => 5, copyFails := fun _ => false, stagingSetupFails := false,
    archiveFails := false, rmtreeFails := false, pruneFails := false,
    destFiles := ["backup_1.zip".toList, "backup_2.zip".toList, "backup_3.zip".toList],
    mtime := fun f => f.length, retention := 2,
    pre := "backup".toList, timestamp := "20260101_120000".toList }

/-- C3: in every run that acquires the lock, `_cleanup` and the lock release
each execute exactly once, whatever failures are injected into the
staging-setup, enumeration, copying or archiving phases; when the cleanup
itself is failure-free and not a dry run, the cleanup staging removal also
happens exactly once. -/
theorem bodyEv_not_cleanupInvoke :
    ∀ e : Ev, isBodyEv e = true → isCleanupInvokeEv e = false := by
  intro e he; cases e <;> first | rfl | exact absurd he (by decide)

theorem bodyEv_not_lockRelease :
    ∀ e : Ev, isBodyEv e = true → isLockReleaseEv e = false := by
  intro e he; cases e <;> first | rfl | exact absurd he (by decide)

theorem bodyEv_not_stagingRemove :
    ∀ e : Ev, isBodyEv e = true → isStagingRemoveEv e = false := by
  intro e he; cases e <;> first | rfl | exact absurd he (by decide)

theorem stagEv_not_cleanupInvoke :
    ∀ e : Ev, isStagingCleanEv e = true → isCleanupInvokeEv e = false := by
  intro e he; cases e <;> first | rfl | exact absurd he (by decide)

theorem stagEv_not_lockRelease :
    ∀ e : Ev, isStagingCleanEv e = true → isLockReleaseEv e = false := by
  intro e he; cases e <;> first | rfl | exact absurd he (by decide)

theorem pruneEv_not_cleanupInvoke :
    ∀ e : Ev, isPruneEv e = true → isCleanupInvokeEv e = false := by
  intro e he; cases e <;> first | rfl | exact absurd he (by decide)

theorem pruneEv_not_lockRelease :
    ∀ e : Ev, isPruneEv e = true → isLockReleaseEv e = false := by
  intro e he; cases e <;> first | rfl | exact absurd he (by decide)

theorem pruneEv_not_stagingRemove :
    ∀ e : Ev, isPruneEv e = true → isStagingRemoveEv e = false := by
  intro e he; cases e <;> first | rfl | exact absurd he (by decide)

theorem countP_ite_single (c : Prop) [Decidable c] (x : Ev) (q : Ev → Bool)
    (hx : q x = false) : (if c then [x] else []).countP q = 0 := by
  split <;> simp [hx]

theorem countP_ite_single' (c : Prop) [Decidable c] (x : Ev) (q : Ev → Bool)
    (hx : q x = false) : (if c then [] else [x]).countP q = 0 := by
  split <;> simp [hx]

theorem cleanup_and_release_once (s : Scenario) (h : s.lockHeld = false) :
    (runEvents s).countP isCleanupInvokeEv = 1 ∧
    (runEvents s).countP isLockReleaseEv = 1 ∧
    (s.dryRun = false → s.rmtreeFails = false →
      (runEvents s).countP isStagingRemoveEv = 1) := by
  obtain ⟨stag, prune, hce, hstag, hprune⟩ :=
    cleanupRun_evs_decomp s (bodyRun s).stagingNow (bodyRun s).dest
  refine ⟨?_, ?_, ?_⟩
  · have hb0 : (bodyRun s).evs.countP isCleanupInvokeEv = 0 :=
      countP_eq_zero_of_classify (isBodyEv_of_mem_bodyRun s)
        bodyEv_not_cleanupInvoke
    have hs0 : stag.countP isCleanupInvokeEv = 0 :=
      countP_eq_zero_of_classify hstag
        stagEv_not_cleanupInvoke
    have hp0 : prune.countP isCleanupInvokeEv = 0 :=
      countP_eq_zero_of_classify hprune
        pruneEv_not_cleanupInvoke
    rw [runEvents_shape s h, hce]
    simp only [List.countP_cons, List.countP_append, hb0, hs0, hp0,
      countP_ite_single _ _ _ (rfl : isCleanupInvokeEv Ev.logCritical = false),
      countP_ite_single' _ _ _ (rfl : isCleanupInvokeEv Ev.logFinished = false)]
    decide
  · have hb0 : (bodyRun s).evs.countP isLockReleaseEv = 0 :=
      countP_eq_zero_of_classify (isBodyEv_of_mem_bodyRun s)
        bodyEv_not_lockRelease
    have hs0 : stag.countP isLockReleaseEv = 0 :=
      countP_eq_zero_of_classify hstag
        stagEv_not_lockRelease
    have hp0 : prune.countP isLockReleaseEv = 0 :=
      countP_eq_zero_of_classify hprune
        pruneEv_not_lockRelease
    rw [runEvents_shape s h, hce]
    simp only [List.countP_cons, List.countP_append, hb0, hs0, hp0,
      countP_ite_single _ _ _ (rfl : isLockReleaseEv Ev.logCritical = false),
      countP_ite_single' _ _ _ (rfl : isLockReleaseEv Ev.logFinished = false)]
    decide
  · intro hd hrm
    have hb0 : (bodyRun s).evs.countP isStagingRemoveEv = 0 :=
      countP_eq_zero_of_classify (isBodyEv_of_mem_bodyRun s)
        bodyEv_not_stagingRemove
    have hp0 : (pruneRun s (bodyRun s).dest).1.countP isStagingRemoveEv = 0 :=
      countP_eq_zero_of_classify (isPruneEv_of_mem_pruneRun s (bodyRun s).dest)
        pruneEv_not_stagingRemove
    rw [runEvents_shape s h,
      cleanupRun_evs_eq s (bodyRun s).stagingNow (bodyRun s).dest hd hrm
        (bodyRun_stagingNow s)]
    simp only [List.countP_cons, List.countP_append, hb0, hp0,
      countP_ite_single _ _ _ (rfl : isStagingRemoveEv Ev.logCritical = false),
      countP_ite_single' _ _ _ (rfl : isStagingRemoveEv Ev.logFinished = false)]
    decide

/-- Closed instance of the once-per-run invariant on the fault-free
scenario. -/
theorem cleanup_and_release_once_witness :
    sHappy.lockHeld = false ∧
    ((runEvents sHappy).countP isCleanupInvokeEv = 1 ∧
     (runEvents sHappy).countP isLockReleaseEv = 1 ∧
     (sHappy.dryRun = false → sHappy.rmtreeFails = false →
       (runEvents sHappy).countP isStagingRemoveEv = 1)) :=
  ⟨rfl, cleanup_and_release_once sHappy rfl⟩

theorem not_mem_of_classify_false {p : Ev → Bool} {l : List Ev}
    (h : ∀ e ∈ l, p e = false) {x : Ev} (hx : p x = true) : x ∉ l :=
  fun hm => by rw [h x hm] at hx; exact Bool.noConfusion hx

theorem runEvents_shape_locked (s : Scenario) (h : s.lockHeld = true) :
    runEvents s = Ev.logAlreadyRunning ::
      ((cleanupRun s s.stagingExists0 s.destFiles).evs ++
        if (cleanupRun s s.stagingExists0 s.destFiles).raised then []
        else [Ev.logFinished]) := by
  unfold runEvents runFull
  rw [if_pos h]

theorem mem_runEvents (s : Scenario) (h : s.lockHeld = false) (e : Ev)
    (he : e ∈ runEvents s) :
    e = Ev.lockCreate ∨ e ∈ (bodyRun s).evs ∨ e = Ev.lockRelease ∨
    e = Ev.logCritical ∨
    e ∈ (cleanupRun s (bodyRun s).stagingNow (bodyRun s).dest).evs ∨
    e = Ev.logFinished := by
  rw [runEvents_shape s h] at he
  rw [List.mem_cons] at he
  rcases he with rfl | he
  · exact Or.inl rfl
  rw [List.mem_append] at he
  rcases he with he | he
  · exact Or.inr (Or.inl he)
  rw [List.mem_cons] at he
  rcases he with rfl | he
  · exact Or.inr (Or.inr (Or.inl rfl))
  rw [List.mem_append] at he
  rcases he with he | he
  · split at he
    · rw [List.mem_singleton] at he
      exact Or.inr (Or.inr (Or.inr (Or.inl he)))
    · exact absurd he (List.not_mem_nil e)
  rw [List.mem_append] at he
  rcases he with he | he
  · exact Or.inr (Or.inr (Or.inr (Or.inr (Or.inl he))))
  · split at he
    · exact absurd he (List.not_mem_nil e)
    · rw [List.mem_singleton] at he
      exact Or.inr (Or.inr (Or.inr (Or.inr (Or.inr he))))

theorem mem_runEvents_locked (s : Scenario) (h : s.lockHeld = true) (e : Ev)
    (he : e ∈ runEvents s) :
    e = Ev.logAlreadyRunning ∨
    e ∈ (cleanupRun s s.stagingExists0 s.destFiles).evs ∨
    e = Ev.logFinished := by
  rw [runEvents_shape_locked s h] at he
  rw [List.mem_cons] at he
  rcases he with rfl | he
  · exact Or.inl rfl
  rw [List.mem_append] at he
  rcases he with he | he
  · exact Or.inr (Or.inl he)
  · split at he
    · exact absurd he (List.not_mem_nil e)
    · rw [List.mem_singleton] at he
      exact Or.inr (Or.inr he)

theorem isCleanupEv_of_mem_cleanupRun (s : Scenario) (st : Bool) (dest : List FName) :
    ∀ e ∈ (cleanupRun s st dest).evs, isCleanupEv e = true := by
  intro e he
  obtain ⟨stag, prune, hce, hstag, hprune⟩ := cleanupRun_evs_decomp s st dest
  rw [hce] at he
  rw [List.mem_cons] at he
  rcases he with rfl | he
  · rfl
  · rw [List.mem_append] at he
    rcases he with he | he
    · have hc := hstag e he
      cases e <;> first | rfl | simp [isStagingCleanEv] at hc
    · have hc := hprune e he
      cases e <;> first | rfl | simp [isPruneEv] at hc

/-- C4 (amended): every run that acquires the lock has the event order:
body, then lock release (at the exit of the `with` block), then the whole
CleaningUp phase; inside CleaningUp the staging removal precedes all
retention-pruning actions.  The lock release is therefore first, not last. -/
theorem release_precedes_cleanup (s : Scenario) (h : s.lockHeld = false) :
    ∃ body crit stag prune fin,
      runEvents s = Ev.lockCreate :: (body ++ Ev.lockRelease ::
        (crit ++ ((Ev.cleanupInvoke :: (stag ++ prune)) ++ fin))) ∧
      (∀ e ∈ body, isBodyEv e = true) ∧
      (∀ e ∈ crit, e = Ev.logCritical) ∧
      (∀ e ∈ stag, isStagingCleanEv e = true) ∧
      (∀ e ∈ prune, isPruneEv e = true) ∧
      (∀ e ∈ fin, e = Ev.logFinished) := by
  obtain ⟨stag, prune, hce, hstag, hprune⟩ :=
    cleanupRun_evs_decomp s (bodyRun s).stagingNow (bodyRun s).dest
  refine ⟨(bodyRun s).evs,
    (if (bodyRun s).raised then [Ev.logCritical] else []), stag, prune,
    (if (cleanupRun s (bodyRun s).stagingNow (bodyRun s).dest).raised then []
      else [Ev.logFinished]),
    ?_, isBodyEv_of_mem_bodyRun s, ?_, hstag, hprune, ?_⟩
  · rw [runEvents_shape s h, hce]
  · intro e he
    split at he
    · rw [List.mem_singleton] at he; exact he
    · exact absurd he (List.not_mem_nil e)
  · intro e he
    split at he
    · exact absurd he (List.not_mem_nil e)
    · rw [List.mem_singleton] at he; exact he

/-- Closed instance of the release-before-cleanup order on the fault-free
scenario. -/
theorem release_precedes_cleanup_witness :
    sHappy.lockHeld = false ∧
    (∃ body crit stag prune fin,
      runEvents sHappy = Ev.lockCreate :: (body ++ Ev.lockRelease ::
        (crit ++ ((Ev.cleanupInvoke :: (stag ++ prune)) ++ fin))) ∧
      (∀ e ∈ body, isBodyEv e = true) ∧
      (∀ e ∈ crit, e = Ev.logCritical) ∧
      (∀ e ∈ stag, isStagingCleanEv e = true) ∧
      (∀ e ∈ prune, isPruneEv e = true) ∧
      (∀ e ∈ fin, e = Ev.logFinished)) :=
  ⟨rfl, release_precedes_cleanup sHappy rfl⟩

/-- C4 counterexample: on the fault-free scenario the lock release occurs
strictly before the retention pruning events (which do occur), so the lock
marker is not released last, contradicting the claimed order. -/
theorem release_not_last_cex :
    (runEvents sHappy).findIdx isLockReleaseEv <
      (runEvents sHappy).findIdx isPruneEv ∧
    (runEvents sHappy).findIdx isPruneEv < (runEvents sHappy).length := by
  decide

theorem cleanupEv_not_copyFile :
    ∀ e : Ev, isCleanupEv e = true → isCopyFileEv e = false := by
  intro e he; cases e <;> first | rfl | exact Bool.noConfusion he

theorem cleanupEv_not_archiveCreate :
    ∀ e : Ev, isCleanupEv e = true → isArchiveCreateEv e = false := by
  intro e he; cases e <;> first | rfl | exact Bool.noConfusion he

theorem bodyEv_not_pruneDelete :
    ∀ e : Ev, isBodyEv e = true → isPruneDeleteEv e = false := by
  intro e he; cases e <;> first | rfl | exact Bool.noConfusion he

theorem pruneRun_no_delete_of_dry (s : Scenario) (dest : List FName)
    (hd : s.dryRun = true) :
    ∀ e ∈ (pruneRun s dest).1, isPruneDeleteEv e = false := by
  intro e he
  unfold pruneRun at he
  by_cases hp : s.pruneFails = true
  · rw [if_pos hp, List.mem_singleton] at he; subst he; rfl
  · rw [if_neg hp, List.mem_cons] at he
    rcases he with rfl | he
    · rfl
    · rw [List.mem_map] at he
      obtain ⟨b, _, hb⟩ := he
      rw [if_pos hd] at hb
      subst hb; rfl

theorem cleanupRun_no_mutation_of_dry (s : Scenario) (st : Bool)
    (dest : List FName) (hd : s.dryRun = true) :
    ∀ e ∈ (cleanupRun s st dest).evs,
      isStagingRemoveEv e = false ∧ isPruneDeleteEv e = false := by
  intro e he
  unfold cleanupRun at he
  by_cases hst : st = true
  · rw [if_pos hst, if_pos hd, List.mem_cons] at he
    rcases he with rfl | he
    · exact ⟨rfl, rfl⟩
    rw [List.mem_cons] at he
    rcases he with rfl | he
    · exact ⟨rfl, rfl⟩
    · exact ⟨pruneEv_not_stagingRemove e (isPruneEv_of_mem_pruneRun s dest e he),
        pruneRun_no_delete_of_dry s dest hd e he⟩
  · rw [if_neg hst, List.mem_cons] at he
    rcases he with rfl | he
    · exact ⟨rfl, rfl⟩
    · exact ⟨pruneEv_not_stagingRemove e (isPruneEv_of_mem_pruneRun s dest e he),
        pruneRun_no_delete_of_dry s dest hd e he⟩

theorem bodyRun_no_copyFile_of_dry (s : Scenario) (hd : s.dryRun = true) :
    ∀ e ∈ (bodyRun s).evs, isCopyFileEv e = false := by
  intro e he
  rcases bodyRun_evs_shape s with hsh | hsh | hsh <;> rw [hsh] at he
  · exact absurd he (List.not_mem_nil e)
  · rw [List.mem_append] at he
    rcases he with he | he
    · rcases (mem_setupEvents s e).mp he with ⟨_, rfl⟩ | rfl | rfl <;> rfl
    · rw [List.mem_singleton] at he; subst he; rfl
  · rw [List.mem_append, List.mem_append] at he
    rcases he with (he | he) | he
    · rcases (mem_setupEvents s e).mp he with ⟨_, rfl⟩ | rfl | rfl <;> rfl
    · obtain ⟨i, _, hw⟩ := (mem_copyEvents s e).mp he
      rcases (mem_workerEvents s i e).mp hw with ⟨_, rfl⟩ | ⟨_, rfl | ⟨hdf, rfl⟩⟩
      · rfl
      · rfl
      · rw [hd] at hdf; exact absurd hdf (by decide)
    · rcases (mem_archiveEvents s e).mp he with rfl | ⟨_, rfl⟩ | ⟨hdf, _⟩
      · rfl
      · rfl
      · rw [hd] at hdf; exact absurd hdf (by decide)

theorem bodyRun_no_archiveCreate_of_dry (s : Scenario) (hd : s.dryRun = true) :
    ∀ e ∈ (bodyRun s).evs, isArchiveCreateEv e = false := by
  intro e he
  rcases bodyRun_evs_shape s with hsh | hsh | hsh <;> rw [hsh] at he
  · exact absurd he (List.not_mem_nil e)
  · rw [List.mem_append] at he
    rcases he with he | he
    · rcases (mem_setupEvents s e).mp he with ⟨_, rfl⟩ | rfl | rfl <;> rfl
    · rw [List.mem_singleton] at he; subst he; rfl
  · rw [List.mem_append, List.mem_append] at he
    rcases he with (he | he) | he
    · rcases (mem_setupEvents s e).mp he with ⟨_, rfl⟩ | rfl | rfl <;> rfl
    · obtain ⟨i, _, hw⟩ := (mem_copyEvents s e).mp he
      rcases (mem_workerEvents s i e).mp hw with ⟨_, rfl⟩ | ⟨_, rfl | ⟨_, rfl⟩⟩ <;> rfl
    · rcases (mem_archiveEvents s e).mp he with rfl | ⟨_, rfl⟩ | ⟨hdf, _⟩
      · rfl
      · rfl
      · rw [hd] at hdf; exact absurd hdf (by decide)

theorem runDest_dry (s : Scenario) (hd : s.dryRun = true) :
    runDest s = s.destFiles := by
  unfold runDest runFull
  by_cases hl : s.lockHeld = true
  · rw [if_pos hl]
    exact cleanupRun_dest_dry s s.stagingExists0 s.destFiles hd
  · rw [if_neg hl]
    show (cleanupRun s (bodyRun s).stagingNow (bodyRun s).dest).dest = s.destFiles
    rw [cleanupRun_dest_dry _ _ _ hd, bodyRun_dest_dry s hd]

theorem setup_mem_bodyRun (s : Scenario)
    (h1 : (s.stagingExists0 && s.stagingSetupFails) = false) :
    Ev.stagingCreate ∈ (bodyRun s).evs ∧
    (s.stagingExists0 = true → Ev.preStagingRemove ∈ (bodyRun s).evs) := by
  have hsm : Ev.stagingCreate ∈ setupEvents s :=
    (mem_setupEvents s _).mpr (Or.inr (Or.inl rfl))
  have hpm : s.stagingExists0 = true → Ev.preStagingRemove ∈ setupEvents s :=
    fun h0 => (mem_setupEvents s _).mpr (Or.inl ⟨h0, rfl⟩)
  unfold bodyRun
  rw [if_neg (by rw [h1]; exact Bool.false_ne_true)]
  by_cases h2 : s.numFiles = 0
  · rw [if_pos h2]
    exact ⟨List.mem_append_left _ hsm, fun h0 => List.mem_append_left _ (hpm h0)⟩
  · rw [if_neg h2]
    by_cases hd : s.dryRun = true
    · rw [if_pos hd]
      exact ⟨List.mem_append_left _ (List.mem_append_left _ hsm),
        fun h0 => List.mem_append_left _ (List.mem_append_left _ (hpm h0))⟩
    · rw [if_neg hd]
      exact ⟨List.mem_append_left _ (List.mem_append_left _ hsm),
        fun h0 => List.mem_append_left _ (List.mem_append_left _ (hpm h0))⟩

theorem mkdir_mem_bodyRun (s : Scenario)
    (h1 : (s.stagingExists0 && s.stagingSetupFails) = false)
    (i : Nat) (hi : i < s.numFiles) (hcf : s.copyFails i = false) :
    Ev.mkdirStaging i ∈ (bodyRun s).evs := by
  have h2 : s.numFiles ≠ 0 := by omega
  have hw : Ev.mkdirStaging i ∈ workerEvents s i :=
    (mem_workerEvents s i _).mpr (Or.inr ⟨hcf, Or.inl rfl⟩)
  have hcm : Ev.mkdirStaging i ∈ copyEvents s :=
    (mem_copyEvents s _).mpr ⟨i, List.mem_range.mpr hi, hw⟩
  unfold bodyRun
  rw [if_neg (by rw [h1]; exact Bool.false_ne_true), if_neg h2]
  by_cases hd : s.dryRun = true
  · rw [if_pos hd]
    exact List.mem_append_left _ (List.mem_append_right _ hcm)
  · rw [if_neg hd]
    exact List.mem_append_left _ (List.mem_append_right _ hcm)

theorem mem_runEvents_of_mem_body (s : Scenario) (h : s.lockHeld = false) {e : Ev}
    (he : e ∈ (bodyRun s).evs) : e ∈ runEvents s := by
  rw [runEvents_shape s h]
  exact List.mem_cons_of_mem _ (List.mem_append_left _ he)

theorem not_mem_runEvents (s : Scenario) (q : Ev → Bool) (x : Ev) (hx : q x = true)
    (hb : ∀ e ∈ (bodyRun s).evs, q e = false)
    (hc1 : ∀ e ∈ (cleanupRun s (bodyRun s).stagingNow (bodyRun s).dest).evs, q e = false)
    (hc2 : ∀ e ∈ (cleanupRun s s.stagingExists0 s.destFiles).evs, q e = false)
    (hlog : q Ev.lockCreate = false ∧ q Ev.lockRelease = false ∧
      q Ev.logCritical = false ∧ q Ev.logFinished = false ∧
      q Ev.logAlreadyRunning = false) :
    x ∉ runEvents s := by
  intro hmem
  by_cases hl : s.lockHeld = true
  · rcases mem_runEvents_locked s hl x hmem with rfl | hm | rfl
    · rw [hlog.2.2.2.2] at hx; exact Bool.noConfusion hx
    · rw [hc2 x hm] at hx; exact Bool.noConfusion hx
    · rw [hlog.2.2.2.1] at hx; exact Bool.noConfusion hx
  · have hl' : s.lockHeld = false := by revert hl; cases s.lockHeld <;> simp
    rcases mem_runEvents s hl' x hmem with rfl | hm | rfl | rfl | hm | rfl
    · rw [hlog.1] at hx; exact Bool.noConfusion hx
    · rw [hb x hm] at hx; exact Bool.noConfusion hx
    · rw [hlog.2.1] at hx; exact Bool.noConfusion hx
    · rw [hlog.2.2.1] at hx; exact Bool.noConfusion hx
    · rw [hc1 x hm] at hx; exact Bool.noConfusion hx
    · rw [hlog.2.2.2.1] at hx; exact Bool.noConfusion hx

/-- C2 (amended): a dry run copies no file, creates no archive file, performs
no cleanup staging removal, deletes no bundle, and leaves the destination's
bundle set unchanged; but it still creates (and releases) the lock marker
under the destination, still removes and recreates the staging directory at
run start, and still creates directories inside staging during the copy
phase. -/
theorem dry_run_effects (s : Scenario) (h : s.dryRun = true) :
    (∀ i : Nat, Ev.copyFile i ∉ runEvents s) ∧
    (∀ n : FName, Ev.archiveCreate n ∉ runEvents s) ∧
    Ev.cleanupStagingRemove ∉ runEvents s ∧
    (∀ n : FName, Ev.pruneDelete n ∉ runEvents s) ∧
    runDest s = s.destFiles ∧
    (s.lockHeld = false → Ev.lockCreate ∈ runEvents s ∧ Ev.lockRelease ∈ runEvents s) ∧
    (s.lockHeld = false → s.stagingSetupFails = false →
      Ev.stagingCreate ∈ runEvents s ∧
      (s.stagingExists0 = true → Ev.preStagingRemove ∈ runEvents s) ∧
      (∀ i : Nat, i < s.numFiles → s.copyFails i = false →
        Ev.mkdirStaging i ∈ runEvents s)) := by
  have hcco : ∀ (st : Bool) (dest : List FName),
      ∀ e ∈ (cleanupRun s st dest).evs, isCopyFileEv e = false :=
    fun st dest e he =>
      cleanupEv_not_copyFile e (isCleanupEv_of_mem_cleanupRun s st dest e he)
  have hcar : ∀ (st : Bool) (dest : List FName),
      ∀ e ∈ (cleanupRun s st dest).evs, isArchiveCreateEv e = false :=
    fun st dest e he =>
      cleanupEv_not_archiveCreate e (isCleanupEv_of_mem_cleanupRun s st dest e he)
  refine ⟨?_, ?_, ?_, ?_, runDest_dry s h, ?_, ?_⟩
  · intro i
    exact not_mem_runEvents s isCopyFileEv _ rfl (bodyRun_no_copyFile_of_dry s h)
      (hcco _ _) (hcco _ _) ⟨rfl, rfl, rfl, rfl, rfl⟩
  · intro n
    exact not_mem_runEvents s isArchiveCreateEv _ rfl
      (bodyRun_no_archiveCreate_of_dry s h)
      (hcar _ _) (hcar _ _) ⟨rfl, rfl, rfl, rfl, rfl⟩
  · exact not_mem_runEvents s isStagingRemoveEv _ rfl
      (fun e he => bodyEv_not_stagingRemove e (isBodyEv_of_mem_bodyRun s e he))
      (fun e he => (cleanupRun_no_mutation_of_dry s _ _ h e he).1)
      (fun e he => (cleanupRun_no_mutation_of_dry s _ _ h e he).1)
      ⟨rfl, rfl, rfl, rfl, rfl⟩
  · intro n
    exact not_mem_runEvents s isPruneDeleteEv _ rfl
      (fun e he => bodyEv_not_pruneDelete e (isBodyEv_of_mem_bodyRun s e he))
      (fun e he => (cleanupRun_no_mutation_of_dry s _ _ h e he).2)
      (fun e he => (cleanupRun_no_mutation_of_dry s _ _ h e he).2)
      ⟨rfl, rfl, rfl, rfl, rfl⟩
  · intro hl
    constructor
    · rw [runEvents_shape s hl]; exact List.mem_cons_self _ _
    · rw [runEvents_shape s hl]
      exact List.mem_cons_of_mem _ (List.mem_append_right _ (List.mem_cons_self _ _))
  · intro hl hsf
    have h1 : (s.stagingExists0 && s.stagingSetupFails) = false := by
      rw [hsf, Bool.and_false]
    obtain ⟨hsc, hpr⟩ := setup_mem_bodyRun s h1
    exact ⟨mem_runEvents_of_mem_body s hl hsc,
      fun h0 => mem_runEvents_of_mem_body s hl (hpr h0),
      fun i hi hcf => mem_runEvents_of_mem_body s hl (mkdir_mem_bodyRun s h1 i hi hcf)⟩

/-- The fault-free scenario run with the dry-run flag set. -/
def sDry : Scenario := { sHappy with dryRun := true }

/-- C2 counterexample: a dry run still creates the lock marker file under
the destination directory, still removes and recreates the staging
directory, and still creates directories inside staging — refuting the
claim that a dry run creates, modifies and deletes nothing. -/
theorem dry_run_mutates_cex :
    sDry.dryRun = true ∧
    Ev.lockCreate ∈ runEvents sDry ∧
    Ev.preStagingRemove ∈ runEvents sDry ∧
    Ev.stagingCreate ∈ runEvents sDry ∧
    Ev.mkdirStaging 0 ∈ runEvents sDry := by
  decide

/-- Closed instance of the amended dry-run frame property. -/
theorem dry_run_effects_witness :
    sDry.dryRun = true ∧
    ((∀ i : Nat, Ev.copyFile i ∉ runEvents sDry) ∧
     (∀ n : FName, Ev.archiveCreate n ∉ runEvents sDry) ∧
     Ev.cleanupStagingRemove ∉ runEvents sDry ∧
     (∀ n : FName, Ev.pruneDelete n ∉ runEvents sDry) ∧
     runDest sDry = sDry.destFiles ∧
     (sDry.lockHeld = false →
       Ev.lockCreate ∈ runEvents sDry ∧ Ev.lockRelease ∈ runEvents sDry) ∧
     (sDry.lockHeld = false → sDry.stagingSetupFails = false →
       Ev.stagingCreate ∈ runEvents sDry ∧
       (sDry.stagingExists0 = true → Ev.preStagingRemove ∈ runEvents sDry) ∧
       (∀ i : Nat, i < sDry.numFiles → sDry.copyFails i = false →
         Ev.mkdirStaging i ∈ runEvents sDry))) :=
  ⟨rfl, dry_run_effects sDry rfl⟩

theorem bodyRun_evs_eq_of_files (s : Scenario)
    (h1 : (s.stagingExists0 && s.stagingSetupFails) = false) (h2 : s.numFiles ≠ 0) :
    (bodyRun s).evs = setupEvents s ++ copyEvents s ++ archiveEvents s := by
  unfold bodyRun
  rw [if_neg (by rw [h1]; exact Bool.false_ne_true), if_neg h2]
  by_cases hd : s.dryRun = true
  · rw [if_pos hd]
  · rw [if_neg hd]

/-- C6: a single file's copy failure is recorded as an unsuccessful result
with 0 bytes copied, is logged, and neither aborts the pool nor the run:
the archive step is still invoked, and the body raises only if the archive
itself fails. -/
theorem copy_failure_isolated (s : Scenario) (hL : s.lockHeld = false)
    (hS : s.stagingSetupFails = false) (i : Nat) (hi : i < s.numFiles)
    (hc : s.copyFails i = true) :
    copyWorkerRes s i = (false, 0) ∧
    Ev.copyFail i ∈ runEvents s ∧
    Ev.archiveInvoke ∈ runEvents s ∧
    (s.archiveFails = false → (bodyRun s).raised = false) := by
  have h1 : (s.stagingExists0 && s.stagingSetupFails) = false := by
    rw [hS, Bool.and_false]
  have h2 : s.numFiles ≠ 0 := by omega
  refine ⟨?_, ?_, ?_, ?_⟩
  · unfold copyWorkerRes; rw [if_pos hc]
  · apply mem_runEvents_of_mem_body s hL
    rw [bodyRun_evs_eq_of_files s h1 h2]
    apply List.mem_append_left
    apply List.mem_append_right
    exact (mem_copyEvents s _).mpr
      ⟨i, List.mem_range.mpr hi, (mem_workerEvents s i _).mpr (Or.inl ⟨hc, rfl⟩)⟩
  · apply mem_runEvents_of_mem_body s hL
    rw [bodyRun_evs_eq_of_files s h1 h2]
    exact List.mem_append_right _ ((mem_archiveEvents s _).mpr (Or.inl rfl))
  · intro ha
    unfold bodyRun
    rw [if_neg (by rw [h1]; exact Bool.false_ne_true), if_neg h2]
    by_cases hd : s.dryRun = true
    · rw [if_pos hd]
    · rw [if_neg hd]; exact ha

/-- The fault-free scenario but with two files, the first of which fails to
copy. -/
def sCopyFail : Scenario :=
  { sHappy with numFiles := 2, copyFails := fun i => i == 0 }

/-- Closed instance of the copy-failure isolation property. -/
theorem copy_failure_isolated_witness :
    sCopyFail.lockHeld = false ∧ sCopyFail.stagingSetupFails = false ∧
    0 < sCopyFail.numFiles ∧ sCopyFail.copyFails 0 = true ∧
    (copyWorkerRes sCopyFail 0 = (false, 0) ∧
     Ev.copyFail 0 ∈ runEvents sCopyFail ∧
     Ev.archiveInvoke ∈ runEvents sCopyFail ∧
     (sCopyFail.archiveFails = false → (bodyRun sCopyFail).raised = false)) :=
  ⟨rfl, rfl, by decide, rfl,
    copy_failure_isolated sCopyFail rfl rfl 0 (by decide) rfl⟩

theorem bodyEv_not_pruneEv :
    ∀ e : Ev, isBodyEv e = true → isPruneEv e = false := by
  intro e he; cases e <;> first | rfl | exact Bool.noConfusion he

theorem pruneRun_fail_evs (s : Scenario) (dest : List FName)
    (hp : s.pruneFails = true) : (pruneRun s dest).1 = [Ev.pruneErrorLog] := by
  unfold pruneRun; rw [if_pos hp]

theorem cleanupRun_not_raised (s : Scenario) (st : Bool) (dest : List FName)
    (h : s.rmtreeFails = false ∨ s.dryRun = true ∨ st = false) :
    (cleanupRun s st dest).raised = false := by
  unfold cleanupRun
  by_cases hst : st = true
  · by_cases hd : s.dryRun = true
    · rw [if_pos hst, if_pos hd]
    · have hr : s.rmtreeFails = false := by
        rcases h with h | h | h
        · exact h
        · exact absurd h hd
        · rw [h] at hst; exact absurd hst (by decide)
      rw [if_pos hst, if_neg hd, if_neg (by rw [hr]; exact Bool.false_ne_true)]
  · rw [if_neg hst]

theorem mem_cleanupRun_of_mem_pruneRun (s : Scenario) (st : Bool)
    (dest : List FName)
    (h : s.rmtreeFails = false ∨ s.dryRun = true ∨ st = false) :
    ∀ e ∈ (pruneRun s dest).1, e ∈ (cleanupRun s st dest).evs := by
  intro e he
  unfold cleanupRun
  by_cases hst : st = true
  · by_cases hd : s.dryRun = true
    · rw [if_pos hst, if_pos hd]
      exact List.mem_cons_of_mem _ (List.mem_cons_of_mem _ he)
    · have hr : s.rmtreeFails = false := by
        rcases h with h | h | h
        · exact h
        · exact absurd h hd
        · rw [h] at hst; exact absurd hst (by decide)
      rw [if_pos hst, if_neg hd, if_neg (by rw [hr]; exact Bool.false_ne_true)]
      exact List.mem_cons_of_mem _ (List.mem_cons_of_mem _ he)
  · rw [if_neg hst]
    exact List.mem_cons_of_mem _ he

theorem mem_runEvents_of_mem_cleanup (s : Scenario) (hL : s.lockHeld = false)
    {e : Ev}
    (he : e ∈ (cleanupRun s (bodyRun s).stagingNow (bodyRun s).dest).evs) :
    e ∈ runEvents s := by
  rw [runEvents_shape s hL]
  exact List.mem_cons_of_mem _ (List.mem_append_right _ (List.mem_cons_of_mem _
    (List.mem_append_right _ (List.mem_append_left _ he))))

theorem lockRelease_mem_runEvents (s : Scenario) (hL : s.lockHeld = false) :
    Ev.lockRelease ∈ runEvents s := by
  rw [runEvents_shape s hL]
  exact List.mem_cons_of_mem _ (List.mem_append_right _ (List.mem_cons_self _ _))

theorem logFinished_mem_runEvents (s : Scenario) (hL : s.lockHeld = false)
    (hcr : (cleanupRun s (bodyRun s).stagingNow (bodyRun s).dest).raised = false) :
    Ev.logFinished ∈ runEvents s := by
  rw [runEvents_shape s hL]
  apply List.mem_cons_of_mem
  apply List.mem_append_right
  apply List.mem_cons_of_mem
  apply List.mem_append_right
  apply List.mem_append_right
  rw [if_neg (by rw [hcr]; exact Bool.false_ne_true)]
  exact List.mem_singleton.mpr rfl

theorem cleanupRun_rmtree_raised (s : Scenario) (st : Bool) (dest : List FName)
    (hst : st = true) (hd : s.dryRun = false) (hr : s.rmtreeFails = true) :
    (cleanupRun s st dest).evs = [Ev.cleanupInvoke] ∧
    (cleanupRun s st dest).raised = true := by
  unfold cleanupRun
  rw [if_pos hst, if_neg (by rw [hd]; exact Bool.false_ne_true), if_pos hr]
  exact ⟨rfl, rfl⟩

/-- C8 (amended): an error in the retention pass (bundle listing or
deletion) is logged and absorbed — the run still reaches its final logging
and the lock release is unaffected.  But an error in the cleanup
staging-tree removal (backpy.py:127, outside the `try`) propagates out of
`_cleanup`: the retention pass and the final logging are skipped; the lock
release is unaffected only because it already happened when the `with`
block exited. -/
theorem cleanup_error_policy (s : Scenario) (hL : s.lockHeld = false) :
    (s.pruneFails = true → s.rmtreeFails = false →
      Ev.pruneErrorLog ∈ runEvents s ∧ Ev.logFinished ∈ runEvents s ∧
      Ev.lockRelease ∈ runEvents s) ∧
    (s.rmtreeFails = true → s.dryRun = false →
      Ev.lockRelease ∈ runEvents s ∧ Ev.logFinished ∉ runEvents s ∧
      (runEvents s).countP isPruneEv = 0) := by
  constructor
  · intro hp hrm
    refine ⟨?_, ?_, lockRelease_mem_runEvents s hL⟩
    · apply mem_runEvents_of_mem_cleanup s hL
      apply mem_cleanupRun_of_mem_pruneRun s _ _ (Or.inl hrm)
      rw [pruneRun_fail_evs s _ hp]
      exact List.mem_singleton.mpr rfl
    · exact logFinished_mem_runEvents s hL
        (cleanupRun_not_raised s _ _ (Or.inl hrm))
  · intro hr hd
    obtain ⟨hevs, hrai⟩ := cleanupRun_rmtree_raised s (bodyRun s).stagingNow
      (bodyRun s).dest (bodyRun_stagingNow s) hd hr
    refine ⟨lockRelease_mem_runEvents s hL, ?_, ?_⟩
    · intro hmem
      rw [runEvents_shape s hL, hevs,
        if_pos hrai] at hmem
      rw [List.mem_cons] at hmem
      rcases hmem with hmem | hmem
      · exact Ev.noConfusion hmem
      rw [List.mem_append] at hmem
      rcases hmem with hmem | hmem
      · have := isBodyEv_of_mem_bodyRun s _ hmem
        exact Bool.noConfusion this
      rw [List.mem_cons] at hmem
      rcases hmem with hmem | hmem
      · exact Ev.noConfusion hmem
      rw [List.mem_append] at hmem
      rcases hmem with hmem | hmem
      · split at hmem
        · rw [List.mem_singleton] at hmem; exact Ev.noConfusion hmem
        · exact absurd hmem (List.not_mem_nil _)
      rw [List.mem_append] at hmem
      rcases hmem with hmem | hmem
      · rw [List.mem_singleton] at hmem; exact Ev.noConfusion hmem
      · exact absurd hmem (List.not_mem_nil _)
    · have hb0 : (bodyRun s).evs.countP isPruneEv = 0 :=
        countP_eq_zero_of_classify (isBodyEv_of_mem_bodyRun s) bodyEv_not_pruneEv
      rw [runEvents_shape s hL, hevs, if_pos hrai]
      simp only [List.countP_cons, List.countP_append, hb0,
        countP_ite_single _ _ _ (rfl : isPruneEv Ev.logCritical = false)]
      decide

/-- The fault-free scenario but with a failing cleanup staging removal. -/
def sRmtreeFail : Scenario := { sHappy with rmtreeFails := true }

/-- C8 counterexample: when the cleanup staging-tree removal fails, the
error escapes `_cleanup`: the retention pass never runs and the closing log
lines are skipped, so a cleanup error did propagate and abort the rest of
the run (only the earlier lock release survives). -/
theorem cleanup_error_propagates_cex :
    Ev.cleanupInvoke ∈ runEvents sRmtreeFail ∧
    (runEvents sRmtreeFail).countP isPruneEv = 0 ∧
    Ev.logFinished ∉ runEvents sRmtreeFail ∧
    Ev.lockRelease ∈ runEvents sRmtreeFail := by
  decide

/-- The fault-free scenario but with a failing bundle listing in the
retention pass. -/
def sPruneFail : Scenario := { sHappy with pruneFails := true }

/-- Closed instance of the amended cleanup error policy. -/
theorem cleanup_error_policy_witness :
    sPruneFail.lockHeld = false ∧
    ((sPruneFail.pruneFails = true → sPruneFail.rmtreeFails = false →
      Ev.pruneErrorLog ∈ runEvents sPruneFail ∧
      Ev.logFinished ∈ runEvents sPruneFail ∧
      Ev.lockRelease ∈ runEvents sPruneFail) ∧
     (sPruneFail.rmtreeFails = true → sPruneFail.dryRun = false →
      Ev.lockRelease ∈ runEvents sPruneFail ∧
      Ev.logFinished ∉ runEvents sPruneFail ∧
      (runEvents sPruneFail).countP isPruneEv = 0)) :=
  ⟨rfl, cleanup_error_policy sPruneFail rfl⟩

/-- The fault-free scenario started while the lock marker already exists. -/
def sLockHeld : Scenario := { sHappy with lockHeld := true }

/-- C1: evaluation at the failing input.  With the marker already present
the run logs AlreadyRunning, performs no enumeration, no copy and no
archive work, and never touches the foreign marker — but, contrary to the
claim and the spec, the `finally` block of `run` still executes `_cleanup`,
which removes the staging tree and deletes an old bundle. -/
theorem already_running_still_cleans :
    Ev.logAlreadyRunning ∈ runEvents sLockHeld ∧
    Ev.enumerate ∉ runEvents sLockHeld ∧
    (runEvents sLockHeld).countP isCopyFileEv = 0 ∧
    (runEvents sLockHeld).countP isArchiveCreateEv = 0 ∧
    Ev.lockRelease ∉ runEvents sLockHeld ∧
    Ev.cleanupStagingRemove ∈ runEvents sLockHeld ∧
    (runEvents sLockHeld).countP isPruneDeleteEv = 1 := by
  decide

/-- The fault-free scenario but with an empty destination and a failing
archive write. -/
def sArchiveFail : Scenario :=
  { sHappy with archiveFails := true, destFiles := [] }

/-- C10: archiving is not atomic.  When the zip write fails after
`zipfile.ZipFile(path, 'w')` created the output file, the partial bundle
stays at the output path, and — its name starting with the prefix and
ending in `.zip` — the subsequent retention pass lists it as a bundle. -/
theorem partial_bundle_counted :
    Ev.archiveCreate (bundleName sArchiveFail) ∈ runEvents sArchiveFail ∧
    Ev.archiveWriteDone ∉ runEvents sArchiveFail ∧
    bundleName sArchiveFail ∈ runDest sArchiveFail ∧
    isBundle sArchiveFail.pre (bundleName sArchiveFail) = true ∧
    Ev.pruneList [bundleName sArchiveFail] ∈ runEvents sArchiveFail := by
  decide

/-- A filesystem path, as its list of components. -/
abbrev Path := List String

/-- Longest common prefix of two component lists. -/
def lcp2 : Path → Path → Path
  | a :: as, b :: bs => if a = b then a :: lcp2 as bs else []
  | _, _ => []

/-- `os.path.commonpath` (backpy.py:79) of a list of normalized paths: the
longest common component prefix. -/
def commonpath : List Path → Path
  | [] => []
  | p :: ps => ps.foldl lcp2 p

/-- `os.path.relpath(p, start)` (backpy.py:79,115) for normalized paths:
climb with `..` from `start` to the common prefix, then descend into
`p`. -/
def relpath (p start : Path) : Path :=
  List.replicate (start.length - (lcp2 p start).length) ".." ++
    p.drop (lcp2 p start).length

theorem lcp2_append_self (s t : Path) : lcp2 (s ++ t) s = s := by
  induction s with
  | nil => cases t <;> rfl
  | cons a as ih => simp [lcp2, ih]

theorem relpath_append_self (s t : Path) : relpath (s ++ t) s = t := by
  unfold relpath
  rw [lcp2_append_self, Nat.sub_self, List.replicate_zero, List.nil_append,
    List.drop_left]

/-- A source file: its path, size in bytes, content and modification time
(the content abstracted to a tag, since `shutil.copy2` copies it
opaquely). -/
structure SrcFile where
  path : Path
  size : Nat
  content : Nat
  mtime : Nat
deriving DecidableEq

/-- The slice of the configuration that `_copy_worker` reads. -/
structure CopyCfg where
  sourceFolders : List Path
  staging : Path
  dryRun : Bool
deriving DecidableEq

/-- The `(success, bytes, src)` triple returned by `_copy_worker`
(backpy.py:84,87). -/
structure CopyResult where
  success : Bool
  bytes : Nat
  src : Path
deriving DecidableEq

/-- The staging tree: content and modification time per path. -/
def StagingFS := Path → Option (Nat × Nat)

/-- The destination path computed by `_copy_worker` (backpy.py:79-80): the
staging root joined with the source path taken relative to the common
ancestor of the configured source folders. -/
def destPath (cfg : CopyCfg) (f : SrcFile) : Path :=
  cfg.staging ++ relpath f.path (commonpath cfg.sourceFolders)

/-- `_copy_worker` (backpy.py:74-87) on one file: on any failure it returns
an unsuccessful result with 0 bytes and leaves staging unchanged; otherwise
it computes the destination path and, unless dry-run, `shutil.copy2` writes
the source's content there and preserves its modification time. -/
def copy_worker (cfg : CopyCfg) (fs : StagingFS) (f : SrcFile) (fails : Bool) :
    CopyResult × StagingFS :=
  if fails then (⟨false, 0, f.path⟩, fs)
  else
    (⟨true, f.size, f.path⟩,
     if cfg.dryRun then fs
     else fun p => if p = destPath cfg f then some (f.content, f.mtime) else fs p)

/-- The staging tree after the copy phase has run all tasks (one
linearization of the worker pool; the workers' destination paths are
disjoint, so the order is irrelevant). -/
def copyStaging (cfg : CopyCfg) : List (SrcFile × Bool) → StagingFS → StagingFS
  | [], fs => fs
  | t :: rest, fs => copyStaging cfg rest (copy_worker cfg fs t.1 t.2).2

theorem copyStaging_preserve (cfg : CopyCfg) (tasks : List (SrcFile × Bool))
    (fs : StagingFS) (p : Path) (hp : ∀ t ∈ tasks, p ≠ destPath cfg t.1) :
    copyStaging cfg tasks fs p = fs p := by
  induction tasks generalizing fs with
  | nil => rfl
  | cons t rest ih =>
    show copyStaging cfg rest (copy_worker cfg fs t.1 t.2).2 p = fs p
    rw [ih _ (fun u hu => hp u (List.mem_cons_of_mem t hu))]
    unfold copy_worker
    by_cases hf : t.2 = true
    · rw [if_pos hf]
    · rw [if_neg hf]
      by_cases hd : cfg.dryRun = true
      · rw [if_pos hd]
      · rw [if_neg hd]
        exact if_neg (hp t (List.mem_cons_self t rest))

theorem destPath_inj (cfg : CopyCfg) (a b : SrcFile)
    (ha : commonpath cfg.sourceFolders <+: a.path)
    (hb : commonpath cfg.sourceFolders <+: b.path)
    (h : destPath cfg a = destPath cfg b) : a.path = b.path := by
  obtain ⟨qa, hqa⟩ := ha
  obtain ⟨qb, hqb⟩ := hb
  unfold destPath at h
  rw [← hqa, ← hqb, relpath_append_self, relpath_append_self] at h
  have hq := List.append_cancel_left h
  rw [← hqa, ← hqb, hq]

theorem copyStaging_writes (cfg : CopyCfg) (tasks : List (SrcFile × Bool))
    (fs0 : StagingFS) (hdry : cfg.dryRun = false)
    (hanc : ∀ t ∈ tasks, commonpath cfg.sourceFolders <+: t.1.path)
    (hdist : tasks.Pairwise (fun a b => a.1.path ≠ b.1.path))
    (f : SrcFile) (hf : (f, false) ∈ tasks) :
    copyStaging cfg tasks fs0 (destPath cfg f) = some (f.content, f.mtime) := by
  revert hanc hdist hf
  induction tasks generalizing fs0 with
  | nil =>
    intro _ _ hf
    exact absurd hf (List.not_mem_nil _)
  | cons t rest ih =>
    intro hanc hdist hf
    have hpc := List.pairwise_cons.mp hdist
    rw [List.mem_cons] at hf
    rcases hf with heq | hfr
    · show copyStaging cfg rest (copy_worker cfg fs0 t.1 t.2).2 (destPath cfg f) = _
      have hnot : ∀ u ∈ rest, destPath cfg f ≠ destPath cfg u.1 := by
        intro u hu hco
        have hne := hpc.1 u hu
        rw [← heq] at hne
        exact hne (destPath_inj cfg f u.1
          (by
            have := hanc t (List.mem_cons_self t rest)
            rw [← heq] at this
            exact this)
          (hanc u (List.mem_cons_of_mem t hu)) hco)
      rw [copyStaging_preserve cfg rest _ _ hnot, ← heq]
      unfold copy_worker
      rw [if_neg (Bool.false_ne_true), if_neg (by rw [hdry]; exact Bool.false_ne_true)]
      exact if_pos rfl
    · show copyStaging cfg rest (copy_worker cfg fs0 t.1 t.2).2 (destPath cfg f) = _
      exact ih _ (fun u hu => hanc u (List.mem_cons_of_mem t hu)) hpc.2 hfr

/-- C7: for every successfully copied file, the staging tree maps the
staging root joined with the file's path relative to the common ancestor of
the source folders to the source's content and modification time. -/
theorem copy_preserves_relative_path (cfg : CopyCfg)
    (tasks : List (SrcFile × Bool)) (fs0 : StagingFS)
    (hdry : cfg.dryRun = false)
    (hanc : ∀ t ∈ tasks, commonpath cfg.sourceFolders <+: t.1.path)
    (hdist : tasks.Pairwise (fun a b => a.1.path ≠ b.1.path))
    (f : SrcFile) (hf : (f, false) ∈ tasks) :
    copyStaging cfg tasks fs0
      (cfg.staging ++ f.path.drop (commonpath cfg.sourceFolders).length) =
      some (f.content, f.mtime) := by
  obtain ⟨q, hq⟩ := hanc (f, false) hf
  have hdst : cfg.staging ++ f.path.drop (commonpath cfg.sourceFolders).length =
      destPath cfg f := by
    unfold destPath
    rw [← hq, relpath_append_self, List.drop_left]
  rw [hdst]
  exact copyStaging_writes cfg tasks fs0 hdry hanc hdist f hf

/-- Two source folders sharing the ancestor `home/alice`. -/
def exCfg7 : CopyCfg :=
  { sourceFolders := [["home", "alice", "docs"], ["home", "alice", "pics"]],
    staging := ["tmp", "staging"], dryRun := false }

/-- A file in the first source folder. -/
def exFileA7 : SrcFile :=
  { path := ["home", "alice", "docs", "a.txt"], size := 3, content := 10, mtime := 100 }

/-- A file in the second source folder. -/
def exFileB7 : SrcFile :=
  { path := ["home", "alice", "pics", "b.png"], size := 4, content := 20, mtime := 200 }

/-- Both files as copy tasks, neither failing. -/
def exTasks7 : List (SrcFile × Bool) := [(exFileA7, false), (exFileB7, false)]

/-- The staging tree starts empty. -/
def exFS7 : StagingFS := fun _ => none

/-- Closed instance of the copy path/metadata preservation property. -/
theorem copy_preserves_relative_path_witness :
    exCfg7.dryRun = false ∧
    (∀ t ∈ exTasks7, commonpath exCfg7.sourceFolders <+: t.1.path) ∧
    exTasks7.Pairwise (fun a b => a.1.path ≠ b.1.path) ∧
    (exFileA7, false) ∈ exTasks7 ∧
    copyStaging exCfg7 exTasks7 exFS7
      (exCfg7.staging ++
        exFileA7.path.drop (commonpath exCfg7.sourceFolders).length) =
      some (exFileA7.content, exFileA7.mtime) :=
  ⟨rfl, by decide, by decide, by decide,
    copy_preserves_relative_path exCfg7 exTasks7 exFS7 rfl (by decide) (by decide)
      exFileA7 (by decide)⟩

/-- `_zip_staging_folder` (backpy.py:110-116): the files found by walking
the staging root, each written to the archive under the entry name
`os.path.relpath(file_path, staging_dir)`. -/
def zipEntries (stagingDir : Path) (files : List (Path × Nat)) :
    List (Path × Nat) :=
  files.map (fun f => (relpath f.1 stagingDir, f.2))

/-- C9: a successful archive contains exactly the files under the staging
root — one entry per file, named by the file's path relative to the staging
root (directory structure preserved), contents unchanged, and no entry for
the root itself. -/
theorem zip_entries_exact (stagingDir : Path) (files : List (Path × Nat))
    (h : ∀ f ∈ files, stagingDir <+: f.1 ∧ f.1 ≠ stagingDir) :
    (zipEntries stagingDir files).length = files.length ∧
    (∀ f ∈ files, (f.1.drop stagingDir.length, f.2) ∈ zipEntries stagingDir files) ∧
    (∀ e ∈ zipEntries stagingDir files, ∃ f ∈ files,
      e.1 = f.1.drop stagingDir.length ∧ e.2 = f.2 ∧ f.1 = stagingDir ++ e.1) ∧
    (∀ e ∈ zipEntries stagingDir files, e.1 ≠ []) := by
  have hrel : ∀ f ∈ files, relpath f.1 stagingDir = f.1.drop stagingDir.length := by
    intro f hf
    obtain ⟨⟨q, hq⟩, _⟩ := h f hf
    rw [← hq, relpath_append_self, List.drop_left]
  refine ⟨List.length_map _ _, ?_, ?_, ?_⟩
  · intro f hf
    unfold zipEntries
    rw [List.mem_map]
    exact ⟨f, hf, by rw [hrel f hf]⟩
  · intro e he
    unfold zipEntries at he
    rw [List.mem_map] at he
    obtain ⟨f, hf, hfe⟩ := he
    obtain ⟨⟨q, hq⟩, _⟩ := h f hf
    refine ⟨f, hf, ?_, ?_, ?_⟩
    · rw [← hfe, hrel f hf]
    · rw [← hfe]
    · rw [← hfe, hrel f hf, ← hq, List.drop_left]
  · intro e he
    unfold zipEntries at he
    rw [List.mem_map] at he
    obtain ⟨f, hf, hfe⟩ := he
    obtain ⟨⟨q, hq⟩, hne⟩ := h f hf
    intro hnil
    rw [← hfe] at hnil
    have hq1 : relpath f.1 stagingDir = [] := hnil
    rw [hrel f hf, ← hq, List.drop_left] at hq1
    rw [hq1, List.append_nil] at hq
    exact hne hq.symm

/-- A staging root with two files in a subdirectory structure. -/
def exZipFiles9 : List (Path × Nat) :=
  [(["tmp", "staging", "docs", "a.txt"], 10),
   (["tmp", "staging", "pics", "sub", "b.png"], 20)]

/-- Closed instance of the archive-content property. -/
theorem zip_entries_exact_witness :
    (∀ f ∈ exZipFiles9, ["tmp", "staging"] <+: f.1 ∧ f.1 ≠ ["tmp", "staging"]) ∧
    ((zipEntries ["tmp", "staging"] exZipFiles9).length = exZipFiles9.length ∧
     (∀ f ∈ exZipFiles9,
       (f.1.drop (["tmp", "staging"] : Path).length, f.2) ∈
         zipEntries ["tmp", "staging"] exZipFiles9) ∧
     (∀ e ∈ zipEntries ["tmp", "staging"] exZipFiles9, ∃ f ∈ exZipFiles9,
       e.1 = f.1.drop (["tmp", "staging"] : Path).length ∧ e.2 = f.2 ∧
       f.1 = ["tmp", "staging"] ++ e.1) ∧
     (∀ e ∈ zipEntries ["tmp", "staging"] exZipFiles9, e.1 ≠ [])) :=
  ⟨by decide, zip_entries_exact ["tmp", "staging"] exZipFiles9 (by decide)⟩

end Backpy
